import Mathlib

/-!
Verification of the tracker-proxy core of RatioGSpoof.py.

The Python source is shallowly embedded: byte/character sequences are
modelled as `List Char`, Python slices by `List.take`/`List.drop` (which
clamp exactly like Python slices), the regex operations of the source by
explicit left-to-right scanning functions with the same first-match
semantics, Python ints by `Int`, and Python floats by exact rationals
(the configured multipliers and the products arising in the claims are
exactly representable, so no rounding is modelled).  Network effects are
modelled by explicit inputs and outputs of `handleClient`: the tracker
reply is a parameter and the bytes written to each socket are fields of
the result.
-/

set_option maxRecDepth 10000

abbrev Bytes := List Char

/-- Python `pat in s` substring test (`"info_hash=" in query_string`). -/
def substrB (pat : Bytes) : Bytes → Bool
  | [] => pat.isEmpty
  | l@(_ :: rest) => pat.isPrefixOf l || substrB pat rest

/-- One position of the scan performed by `re.search(key + "=([^&]+)", qs)`:
the marker (field key including its `=`) must occur here, followed by at
least one character that is not `&`. -/
def markerMatch (marker : Bytes) (l : Bytes) : Bool :=
  marker.isPrefixOf l &&
    (match l.drop marker.length with
     | c :: _ => c != '&'
     | [] => false)

/-- First match of `marker([^&]+)` in the query string, scanning left to
right exactly as the `re` engine does: returns the text before the match,
the captured value (maximal run of non-`&` characters), and the suffix
starting at the character after the value. -/
def findFirst (marker : Bytes) : Bytes → Option (Bytes × Bytes × Bytes)
  | [] => none
  | l@(c :: rest) =>
    if markerMatch marker l then
      let tail := l.drop marker.length
      some ([], tail.takeWhile (fun x => x != '&'), tail.dropWhile (fun x => x != '&'))
    else
      (findFirst marker rest).map (fun pvs => (c :: pvs.1, pvs.2.1, pvs.2.2))

/-- `re.search(key + "=([^&]+)", qs)` returning the captured group, as used
to build `params` in `handle_client` (lines 171-176). -/
def extractParam (marker : Bytes) (qs : Bytes) : Option Bytes :=
  (findFirst marker qs).map (fun pvs => pvs.2.1)

/-- `re.sub(key + "=([^&]+)", key + "=" + newVal, qs, count=1)`: replace the
value of the first match, leave the string unchanged when there is none. -/
def subFirst (marker : Bytes) (newVal : Bytes) (qs : Bytes) : Bytes :=
  match findFirst marker qs with
  | some (p, _, s) => p ++ marker ++ newVal ++ s
  | none => qs

/-- Splitting a query string at `&` into its fields (used only to state
properties about which fields a rewrite touches). -/
def splitAmp : Bytes → List Bytes
  | [] => [[]]
  | c :: rest =>
    if c = '&' then [] :: splitAmp rest
    else
      match splitAmp rest with
      | s0 :: ss => (c :: s0) :: ss
      | [] => [[c]]

/-- Every occurrence of the marker in the string is immediately followed by
`&` or by the end of the string (so the regex captures no value anywhere). -/
def allOccEmpty (marker : Bytes) : Bytes → Bool
  | [] => true
  | l@(_ :: rest) =>
    (if marker.isPrefixOf l then
       (match l.drop marker.length with
        | [] => true
        | c :: _ => c = '&')
     else true) && allOccEmpty marker rest

/-- Decimal digit characters for the number renderings below. -/
def digitChar (n : Nat) : Char :=
  if n = 0 then '0' else if n = 1 then '1' else if n = 2 then '2'
  else if n = 3 then '3' else if n = 4 then '4' else if n = 5 then '5'
  else if n = 6 then '6' else if n = 7 then '7' else if n = 8 then '8'
  else if n = 9 then '9' else '*'

def natDigitsAux : Nat → Nat → List Char → List Char
  | 0, _, acc => acc
  | fuel + 1, n, acc =>
    if n < 10 then digitChar n :: acc
    else natDigitsAux fuel (n / 10) (digitChar (n % 10) :: acc)

/-- Decimal rendering of a natural number. -/
def natDigits (n : Nat) : List Char := natDigitsAux (n + 1) n []

def digitsToNat (ds : Bytes) : Nat :=
  ds.foldl (fun a c => a * 10 + (c.toNat - 48)) 0

def parseDigits (ds : Bytes) : Option Nat :=
  if ds ≠ [] ∧ ds.all Char.isDigit then some (digitsToNat ds) else none

/-- Python `int(s)` on a decimal text: surrounding whitespace is stripped,
an optional sign is allowed, and the rest must be a nonempty digit run;
anything else raises `ValueError` (modelled as `none`).  CPython addition-
ally accepts underscore digit grouping, which no claim depends on and is
not modelled. -/
def pyParseInt (l : Bytes) : Option Int :=
  let t := ((l.dropWhile Char.isWhitespace).reverse.dropWhile Char.isWhitespace).reverse
  match t with
  | '-' :: ds => (parseDigits ds).map (fun n => -(n : Int))
  | '+' :: ds => (parseDigits ds).map (fun n => (n : Int))
  | ds => (parseDigits ds).map (fun n => (n : Int))

def fracDigits : Nat → Nat → Nat → List Char
  | 0, _, _ => []
  | fuel + 1, r, d =>
    if r = 0 then []
    else digitChar (r * 10 / d) :: fracDigits fuel (r * 10 % d) d

/-- Python `str` of the float `uploaded * multiplier`, for floats whose
value is an exact short decimal (the case in every claim): sign, integer
part, a dot, and the fractional digits — `str(3000.0) = "3000.0"`.
CPython's shortest-repr rounding and its switch to exponent notation for
very large or small magnitudes are not modelled; no claim depends on the
digit string itself. -/
def pyFloatStr (q : ℚ) : Bytes :=
  let sign : Bytes := if q < 0 then ['-'] else []
  let n := q.num.natAbs
  let d := q.den
  let fr := fracDigits 17 (n % d) d
  sign ++ natDigits (n / d) ++ '.' :: (if fr.isEmpty then ['0'] else fr)

/-- The policy configuration (module-level globals of the source). -/
structure Config where
  minSeedersThreshold : Int
  uploadMultiplierLow : ℚ
  uploadMultiplierHigh : ℚ
  noDownload : Bool
  pretendToSeed : Bool

/-- The swarm state store `seed_counts`: a mapping from the verbatim
`info_hash` text to the last recorded seeder count. -/
abbrev SeedCounts := List (Bytes × Int)

def seedCountsGet : SeedCounts → Bytes → Option Int
  | [], _ => none
  | (k, v) :: rest, key => if k = key then some v else seedCountsGet rest key

def seedCountsSet : SeedCounts → Bytes → Int → SeedCounts
  | [], key, v => [(key, v)]
  | (k, w) :: rest, key, v =>
    if k = key then (key, v) :: rest else (k, w) :: seedCountsSet rest key v

/-- Lines 181-184: the multiplier is `UPLOAD_MULTIPLIER_HIGH` when the
captured `info_hash` has a stored seeder count at or above the threshold,
and `UPLOAD_MULTIPLIER_LOW` otherwise (also when no `info_hash` value was
captured: `None in seed_counts` is false). -/
def selectMultiplier (store : SeedCounts) (cfg : Config) (infoHash : Option Bytes) : ℚ :=
  match infoHash with
  | some ih =>
    match seedCountsGet store ih with
    | some c => if cfg.minSeedersThreshold ≤ c then cfg.uploadMultiplierHigh
                else cfg.uploadMultiplierLow
    | none => cfg.uploadMultiplierLow
  | none => cfg.uploadMultiplierLow

def upMarker : Bytes := "uploaded=".data
def dlMarker : Bytes := "downloaded=".data
def leftMarker : Bytes := "left=".data
def infoHashMarker : Bytes := "info_hash=".data

/-- Decoded bencoded value (`bdecode`'s four shapes). -/
inductive Bval where
  | int (n : Int)
  | bstr (s : Bytes)
  | list (items : List Bval)
  | dict (entries : List (Bval × Bval))

/-- Equality of the hashable decoded values used as dictionary keys
(Python `==` between ints and between byte strings; an int never equals a
byte string). -/
def keyEq : Bval → Bval → Bool
  | .int a, .int b => a == b
  | .bstr a, .bstr b => a == b
  | _, _ => false

/-- Whether a decoded value can be a Python dict key (lists and dicts are
unhashable: `d[key] = value` raises for them). -/
def hashable : Bval → Bool
  | .int _ => true
  | .bstr _ => true
  | _ => false

/-- Python `d[key] = value`: overwrite in place if the key is present
(keeping its position), append otherwise. -/
def entriesSet : List (Bval × Bval) → Bval → Bval → List (Bval × Bval)
  | [], k, v => [(k, v)]
  | (k0, v0) :: rest, k, v =>
    if keyEq k0 k then (k0, v) :: rest else (k0, v0) :: entriesSet rest k v

/-- Python `d.get(key)`: the stored value of the (unique) matching key. -/
def entriesGet : List (Bval × Bval) → Bval → Option Bval
  | [], _ => none
  | (k0, v0) :: rest, k => if keyEq k0 k then some v0 else entriesGet rest k

/-- Python `d.get(key, default)`. -/
def entriesGetD (es : List (Bval × Bval)) (k d : Bval) : Bval :=
  (entriesGet es k).getD d

/-- The `i<int>e` branch of `decode_next` (lines 80-84): `data.index(b"e")`
raising when there is no terminator, then `int(...)` on the run before it. -/
def intBranch (rest : Bytes) : Option (Bval × Bytes) :=
  let pre := rest.takeWhile (fun x => x != 'e')
  if pre.length = rest.length then none
  else
    match pyParseInt pre with
    | some n => some (.int n, rest.drop (pre.length + 1))
    | none => none

/-- The byte-string branch of `decode_next` (lines 85-90).  The Python
slice `data[start:start+length]` clamps to the end of the buffer, exactly
like `List.take`; an over-declared length therefore yields the truncated
remainder together with a position past the end of the buffer, not an
error. -/
def strBranch (data : Bytes) : Option (Bval × Bytes) :=
  let pre := data.takeWhile (fun x => x != ':')
  if pre.length = data.length then none
  else
    match pyParseInt pre with
    | some len =>
      let body := data.drop (pre.length + 1)
      some (.bstr (body.take len.toNat), body.drop len.toNat)
    | none => none

mutual

/-- `decode_next` of the minimal bdecoder (lines 79-107), consuming the
remaining buffer instead of carrying an index (Python's clamping slices
and its end-of-buffer reads map exactly onto `take`/`drop` of the
remainder).  Failure (`none`) models the `ValueError` raised on malformed
data; the fuel is an upper bound on the recursion depth, generous enough
for every decode (`bdecode` passes twice the buffer length). -/
def decodeNext : Nat → Bytes → Option (Bval × Bytes)
  | 0, _ => none
  | fuel + 1, data =>
    match data with
    | [] => none
    | c :: rest =>
      if c = 'i' then intBranch rest
      else if c.isDigit then strBranch data
      else if c = 'l' then decodeItems fuel rest []
      else if c = 'd' then decodeEntries fuel rest []
      else none

/-- The `l ... e` loop of `decode_next` (lines 91-97). -/
def decodeItems : Nat → Bytes → List Bval → Option (Bval × Bytes)
  | 0, _, _ => none
  | fuel + 1, data, acc =>
    match data with
    | 'e' :: rest => some (.list acc, rest)
    | _ =>
      match decodeNext fuel data with
      | some (v, r1) => decodeItems fuel r1 (acc ++ [v])
      | none => none

/-- The `d ... e` loop of `decode_next` (lines 98-105): key then value,
then `d[key] = value` (raising on an unhashable key). -/
def decodeEntries : Nat → Bytes → List (Bval × Bval) → Option (Bval × Bytes)
  | 0, _, _ => none
  | fuel + 1, data, acc =>
    match data with
    | 'e' :: rest => some (.dict acc, rest)
    | _ =>
      match decodeNext fuel data with
      | some (k, r1) =>
        match decodeNext fuel r1 with
        | some (v, r2) =>
          if hashable k then decodeEntries fuel r2 (entriesSet acc k v) else none
        | none => none
      | none => none

end

/-- `bdecode` (lines 74-109): decode from offset 0 and discard the final
position (trailing bytes are ignored). -/
def bdecode (data : Bytes) : Option Bval :=
  (decodeNext (2 * data.length + 2) data).map (fun x => x.1)

/-- Python `int(value)` applied to a decoded value (`int(complete)` at
line 240): an int is returned as is, a byte string is parsed as text, and
any other shape raises `TypeError` (modelled as `none`). -/
def pyIntOfValue : Bval → Option Int
  | .int n => some n
  | .bstr s => pyParseInt s
  | _ => none

def completeKey : Bval := .bstr ("complete".data)
def zeroDefault : Bval := .bstr ("0".data)

/-- One position of the scan for `GET (http://[^ ]+) HTTP/1\.[01]`
(line 136): the literal prefix, then the maximal run of non-space
characters starting at `http://` (at least one character after it), then
the version literal. -/
def tryGetAt (l : Bytes) : Option Bytes :=
  if ("GET ".data).isPrefixOf l then
    let afterGet := l.drop 4
    let url := afterGet.takeWhile (fun c => c != ' ')
    let after := afterGet.drop url.length
    if ("http://".data).isPrefixOf url && decide (7 < url.length) &&
        ((" HTTP/1.0".data).isPrefixOf after || (" HTTP/1.1".data).isPrefixOf after) then
      some url
    else none
  else none

/-- `re.search` for the request line: leftmost position where the pattern
matches. -/
def searchGetUrl : Bytes → Option Bytes
  | [] => none
  | l@(_ :: rest) =>
    match tryGetAt l with
    | some url => some url
    | none => searchGetUrl rest

/-- The character class `[-a-zA-Z0-9.]` of the URL regex (line 146). -/
def hostChar (c : Char) : Bool := c = '-' || c.isAlpha || c.isDigit || c = '.'

/-- `re.match(r"http://([-a-zA-Z0-9\.]+)(?::([0-9]+))?(/.*)", url)`
(lines 146-155): host run, optional `:digits` port (default 80), then a
path starting with `/` running to the end of the line (`.` does not match
a newline).  The greedy runs cannot backtrack into a successful parse, so
the scan below is equivalent to the regex. -/
def parseUrl (url : Bytes) : Option (Bytes × Nat × Bytes) :=
  if ("http://".data).isPrefixOf url then
    let rest := url.drop 7
    let host := rest.takeWhile hostChar
    if host.isEmpty then none
    else
      match rest.drop host.length with
      | ':' :: r2 =>
        let ds := r2.takeWhile Char.isDigit
        (match r2.drop ds.length with
         | '/' :: pr =>
           if ds.isEmpty then none
           else some (host, digitsToNat ds, '/' :: pr.takeWhile (fun c => c != '\n'))
         | _ => none)
      | '/' :: pr => some (host, 80, '/' :: pr.takeWhile (fun c => c != '\n'))
      | _ => none
  else none

/-- Outcome of lines 136-168 of `handle_client`: the three ways a request
can fall out of the rewrite path, or the parsed pieces of an eligible
tracker announce. -/
inductive ParseOutcome where
  | notGet
  | badUrl
  | noInfoHash
  | eligible (host : Bytes) (port : Nat) (pathOnly : Bytes) (queryString : Bytes)

def parseRequest (text : Bytes) : ParseOutcome :=
  match searchGetUrl text with
  | none => .notGet
  | some url =>
    match parseUrl url with
    | none => .badUrl
    | some (host, port, path) =>
      let pathOnly := path.takeWhile (fun c => c != '?')
      let qs := if substrB ['?'] path then path.drop (pathOnly.length + 1) else []
      if substrB infoHashMarker qs then .eligible host port pathOnly qs else .noInfoHash

/-- Lines 188-195: when the `uploaded` parameter was captured, replace the
first `uploaded=<value>` occurrence with `uploaded=` followed by
`str(int(value or 0) * multiplier)`; the parse falling back to 0 models
the `except` clause. -/
def rewriteUploaded (mult : ℚ) (qs : Bytes) : Bytes :=
  match findFirst upMarker qs with
  | some _ =>
    subFirst upMarker
      (pyFloatStr ((((pyParseInt ((extractParam upMarker qs).getD [])).getD 0 : Int) : ℚ) * mult)) qs
  | none => qs

/-- Lines 197-200: if `NO_DOWNLOAD` is set and the marker occurs, force the
first `downloaded=<value>` occurrence to `downloaded=0`. -/
def rewriteDownloaded (noDownload : Bool) (qs : Bytes) : Bytes :=
  if noDownload && substrB dlMarker qs then subFirst dlMarker ['0'] qs else qs

/-- Lines 202-205: if `PRETEND_TO_SEED` is set and the marker occurs, force
the first `left=<value>` occurrence to `left=0`. -/
def rewriteLeft (pretendToSeed : Bool) (qs : Bytes) : Bytes :=
  if pretendToSeed && substrB leftMarker qs then subFirst leftMarker ['0'] qs else qs

/-- The full query rewriting of lines 170-205, in source order: the
multiplier is selected from the `info_hash` captured on the original
query string, then the three substitutions are applied in turn. -/
def rewriteQuery (cfg : Config) (store : SeedCounts) (qs : Bytes) : Bytes :=
  rewriteLeft cfg.pretendToSeed
    (rewriteDownloaded cfg.noDownload
      (rewriteUploaded (selectMultiplier store cfg (extractParam infoHashMarker qs)) qs))

/-- Python `line.lower().startswith("host:")`. -/
def isHostLine (line : Bytes) : Bool :=
  ("host:".data).isPrefixOf (line.map Char.toLower)

/-- `request_text.split("\r\n")`. -/
def splitCRLF : Bytes → List Bytes
  | [] => [[]]
  | '\r' :: '\n' :: rest => [] :: splitCRLF rest
  | c :: rest =>
    match splitCRLF rest with
    | s0 :: ss => (c :: s0) :: ss
    | [] => [[c]]

/-- Lines 207-221: request line with the rewritten path and a normalized
HTTP/1.1 version, then every original header line after the first split
line, dropping empty lines and replacing any Host header with the
resolved upstream host and port, terminated by a blank line. -/
def buildModifiedRequest (text : Bytes) (host : Bytes) (port : Nat) (newPath : Bytes) : Bytes :=
  let requestLine := "GET ".data ++ newPath ++ " HTTP/1.1\r\n".data
  let headerLines := (splitCRLF text).drop 1
  let updated := headerLines.filterMap (fun line =>
    if isHostLine line then some ("Host: ".data ++ host ++ ':' :: natDigits port)
    else if line.isEmpty then none else some line)
  requestLine ++ List.intercalate ("\r\n".data) updated ++ "\r\n\r\n".data

/-- Observable outcome of one `handle_client` run: the request sent to the
tracker (if any), the bytes written back on the client socket (if any),
and the seed-count store afterwards.  The client socket is always closed
at the end (the `finally` block), on every path. -/
structure HandlerResult where
  upstream : Option (Bytes × Nat × Bytes)
  sentToClient : Option Bytes
  store : SeedCounts

/-- `handle_client` (lines 112-250).  The received bytes are a parameter
(the UTF-8 decode with errors ignored is modelled as the identity on the
character sequence), and `forward_to_tracker`'s result is the
`trackerResponse` parameter (`none` models a connection failure).  Note
that for an ineligible request the source calls
`forward_request(client_socket, request_data)`, which writes the original
request bytes back on the client socket (lines 272-281).  When the reply
decodes to a dict, an `info_hash` was captured, and `int(complete)`
raises (line 240), the exception skips `sendall` at line 243, so nothing
is sent to the client and the store is unchanged.  The guard at line 234
is `if decoded and isinstance(decoded, dict)`: an empty dict is falsy in
Python, so a reply decoding to an empty map skips the update block
entirely and is relayed like any other non-update reply. -/
def handleClient (cfg : Config) (store : SeedCounts) (requestData : Bytes)
    (trackerResponse : Option Bytes) : HandlerResult :=
  if requestData.isEmpty then ⟨none, none, store⟩
  else
    match parseRequest requestData with
    | .notGet => ⟨none, some requestData, store⟩
    | .badUrl => ⟨none, none, store⟩
    | .noInfoHash => ⟨none, some requestData, store⟩
    | .eligible host port pathOnly qs =>
      let infoHash := extractParam infoHashMarker qs
      let newQs := rewriteQuery cfg store qs
      let newPath := if newQs.isEmpty then pathOnly else pathOnly ++ '?' :: newQs
      let modReq := buildModifiedRequest requestData host port newPath
      match trackerResponse with
      | none => ⟨some (host, port, modReq), none, store⟩
      | some reply =>
        match bdecode reply with
        | some (.dict entries) =>
          if entries.isEmpty then ⟨some (host, port, modReq), some reply, store⟩
          else
            match infoHash with
            | some ih =>
              match pyIntOfValue (entriesGetD entries completeKey zeroDefault) with
              | some n => ⟨some (host, port, modReq), some reply, seedCountsSet store ih n⟩
              | none => ⟨some (host, port, modReq), none, store⟩
            | none => ⟨some (host, port, modReq), some reply, store⟩
        | _ => ⟨some (host, port, modReq), some reply, store⟩

/-! ### Helper lemmas -/

theorem isPrefixOf_append_self (p r : Bytes) : p.isPrefixOf (p ++ r) = true :=
  List.isPrefixOf_iff_prefix.mpr ⟨r, rfl⟩

theorem substrB_of_isPrefixOf {pat l : Bytes} (h : pat.isPrefixOf l = true) :
    substrB pat l = true := by
  cases l with
  | nil =>
    cases pat with
    | nil => rfl
    | cons a t => exact absurd h (by simp [List.isPrefixOf])
  | cons x xs => simp [substrB, h]

theorem substrB_append_mid (pat a b : Bytes) : substrB pat (a ++ pat ++ b) = true := by
  induction a with
  | nil => exact substrB_of_isPrefixOf (isPrefixOf_append_self pat b)
  | cons c t ih =>
    have e : (c :: t) ++ pat ++ b = c :: (t ++ pat ++ b) := by simp
    rw [e, substrB, ih, Bool.or_true]

theorem findFirst_decomp (marker : Bytes) :
    ∀ qs p v s, findFirst marker qs = some (p, v, s) →
      qs = p ++ marker ++ v ++ s ∧ v ≠ [] ∧ (∀ c ∈ v, c ≠ '&') := by
  intro qs
  induction qs with
  | nil => intro p v s h; exact Option.noConfusion h
  | cons c rest ih =>
    intro p v s h
    rw [findFirst] at h
    by_cases hm : markerMatch marker (c :: rest) = true
    · rw [if_pos hm] at h
      rw [markerMatch, Bool.and_eq_true] at hm
      obtain ⟨t, ht⟩ := List.isPrefixOf_iff_prefix.mp hm.1
      have hdrop : (c :: rest).drop marker.length = t := by rw [← ht, List.drop_left]
      rw [hdrop] at h
      injection h with h1
      have hp : p = [] := congrArg Prod.fst h1.symm
      have hv : v = t.takeWhile (fun x => x != '&') := congrArg (fun z => z.2.1) h1.symm
      have hs : s = t.dropWhile (fun x => x != '&') := congrArg (fun z => z.2.2) h1.symm
      subst hp hv hs
      refine ⟨?_, ?_, ?_⟩
      · rw [List.nil_append, List.append_assoc, List.takeWhile_append_dropWhile, ht]
      · rw [hdrop] at hm
        rcases t with _ | ⟨c2, t2⟩
        · exact absurd hm.2 (by simp)
        · have hc2 : (c2 != '&') = true := by simpa using hm.2
          simp [List.takeWhile_cons, hc2]
      · intro x hx
        have := List.mem_takeWhile_imp hx
        simpa using this
    · rw [if_neg hm] at h
      rcases hf : findFirst marker rest with _ | pvs
      · rw [hf] at h; exact Option.noConfusion h
      · rw [hf, Option.map_some'] at h
        injection h with h1
        obtain ⟨p', v', s'⟩ := pvs
        have hp : p = c :: p' := congrArg Prod.fst h1.symm
        have hv : v = v' := congrArg (fun z => z.2.1) h1.symm
        have hs : s = s' := congrArg (fun z => z.2.2) h1.symm
        subst hp hv hs
        obtain ⟨hq, hv2, hv3⟩ := ih p' v s hf
        refine ⟨?_, hv2, hv3⟩
        rw [hq]
        simp [List.cons_append, List.append_assoc]

theorem subFirst_of_findFirst {marker qs p v s : Bytes} (newV : Bytes)
    (h : findFirst marker qs = some (p, v, s)) :
    subFirst marker newV qs = p ++ marker ++ newV ++ s := by
  rw [subFirst, h]

theorem findFirst_substrB {marker qs p v s : Bytes}
    (h : findFirst marker qs = some (p, v, s)) : substrB marker qs = true := by
  obtain ⟨hq, _, _⟩ := findFirst_decomp marker qs p v s h
  rw [hq, List.append_assoc]; exact substrB_append_mid marker p (v ++ s)

theorem eligible_ne_empty {req host : Bytes} {port : Nat} {pathOnly qs : Bytes}
    (h : parseRequest req = .eligible host port pathOnly qs) : req.isEmpty = false := by
  cases req with
  | nil =>
    have h0 : parseRequest ([] : Bytes) = ParseOutcome.notGet := rfl
    rw [h0] at h
    exact ParseOutcome.noConfusion h
  | cons a t => rfl

theorem seedCountsGet_set (s : SeedCounts) (k : Bytes) (v : Int) :
    seedCountsGet (seedCountsSet s k v) k = some v := by
  induction s with
  | nil => simp [seedCountsSet, seedCountsGet]
  | cons kv rest ih =>
    obtain ⟨k0, v0⟩ := kv
    by_cases h : k0 = k
    · subst h; simp [seedCountsSet, seedCountsGet]
    · simp [seedCountsSet, seedCountsGet, h, ih]

/-- Whether a reply decodes successfully as a dictionary. -/
def decodesToDict (r : Bytes) : Bool :=
  match bdecode r with
  | some (.dict _) => true
  | _ => false

/-! ### Shared concrete instances for witnesses and counterexamples -/

/-- The source defaults: threshold 5, low multiplier 3.0, high 1.5, both
suppression flags off. -/
def cfgLow3 : Config := ⟨5, 3, 3/2, false, false⟩

/-- Same policy with `NO_DOWNLOAD` enabled. -/
def cfgNoDl : Config := ⟨5, 3, 3/2, true, false⟩

/-- A well-formed announce for swarm identifier ABC. -/
def reqAnnounce : Bytes :=
  "GET http://trk/ann?info_hash=ABC&uploaded=10 HTTP/1.1\r\nHost: trk\r\n\r\n".data

/-! ### C1 -/

/-- The stored seeder count for an optional captured identifier
(`info_hash in seed_counts` lookup; `None` is never a key). -/
def storedCount (store : SeedCounts) (ih : Option Bytes) : Option Int :=
  match ih with
  | some k => seedCountsGet store k
  | none => none

/-- C1: for every eligible request the selected upload multiplier is
`uploadMultiplierHigh` exactly when the store holds a seeder count for the
captured swarm identifier that is at or above the threshold, and
`uploadMultiplierLow` otherwise — in particular for every identifier with
no entry (and when no identifier value was captured), regardless of the
threshold.  `selectMultiplier` is the function `handleClient` applies, via
`rewriteQuery`, to every eligible request. -/
theorem selectMultiplier_spec (store : SeedCounts) (cfg : Config) (ih : Option Bytes) :
    (∀ c, storedCount store ih = some c → cfg.minSeedersThreshold ≤ c →
      selectMultiplier store cfg ih = cfg.uploadMultiplierHigh) ∧
    (∀ c, storedCount store ih = some c → c < cfg.minSeedersThreshold →
      selectMultiplier store cfg ih = cfg.uploadMultiplierLow) ∧
    (storedCount store ih = none → selectMultiplier store cfg ih = cfg.uploadMultiplierLow) := by
  refine ⟨?_, ?_, ?_⟩
  · intro c hc hle
    cases ih with
    | none => exact Option.noConfusion hc
    | some k =>
      rw [storedCount] at hc
      simp only [selectMultiplier, hc]
      rw [if_pos hle]
  · intro c hc hlt
    cases ih with
    | none => exact Option.noConfusion hc
    | some k =>
      rw [storedCount] at hc
      simp only [selectMultiplier, hc]
      rw [if_neg (not_le_of_lt hlt)]
  · intro hc
    cases ih with
    | none => rfl
    | some k =>
      rw [storedCount] at hc
      simp only [selectMultiplier, hc]

theorem selectMultiplier_spec_witness :
    selectMultiplier [(("A").data, 7)] cfgLow3 (some ("A".data)) = cfgLow3.uploadMultiplierHigh :=
  (selectMultiplier_spec [(("A").data, 7)] cfgLow3 (some ("A".data))).1 7 rfl (by decide)

/-! ### C2 -/

/-- A GET request whose query string has no `info_hash` field. -/
def reqNoHash : Bytes := "GET http://trk/ann?foo=1 HTTP/1.1\r\nHost: trk\r\n\r\n".data

/-- C2 (behavior of the code at the failing input): for an ineligible
request (here: no swarm-identifier field) the handler produces no
forwarded upstream request, but — contrary to the claim — it does not
close silently: `forward_request(client_socket, request_data)` writes the
original request bytes back on the client socket before closing, so the
client receives an echo of its own request. -/
theorem ineligible_request_echoed :
    (handleClient cfgLow3 [] reqNoHash none).upstream = none ∧
    (handleClient cfgLow3 [] reqNoHash none).sentToClient = some reqNoHash ∧
    (handleClient cfgLow3 [] reqNoHash none).store = [] :=
  ⟨rfl, rfl, rfl⟩

/-! ### C4 -/

/-- C4 counterexample: a buffer whose byte string declares length 5 with
only 2 bytes remaining decodes successfully (to the truncated remainder)
instead of signalling a malformed-input failure: Python's slice
`data[start:start+length]` clamps at the end of the buffer. -/
theorem bdecode_truncated_counterexample :
    bdecode ("5:ab".data) = some (.bstr ("ab".data)) := rfl

theorem takeWhile_append_all {p : Char → Bool} {l : Bytes} (h : l.all p = true) (y : Bytes) :
    (l ++ y).takeWhile p = l ++ y.takeWhile p := by
  induction l with
  | nil => rfl
  | cons c t ih =>
    rw [List.all_cons, Bool.and_eq_true] at h
    simp [List.takeWhile_cons, h.1, ih h.2]

theorem drop_append_cons (ds : Bytes) (c : Char) (payload : Bytes) :
    (ds ++ c :: payload).drop (ds.length + 1) = payload := by
  induction ds with
  | nil => rfl
  | cons d t ih =>
    show (d :: (t ++ c :: payload)).drop (t.length + 1 + 1) = payload
    rw [List.drop_succ_cons]
    exact ih

theorem strBranch_clamped (ds payload : Bytes) (L : Nat)
    (hdig : ds.all Char.isDigit = true)
    (hparse : pyParseInt ds = some (L : Int))
    (hlen : payload.length < L) :
    strBranch (ds ++ ':' :: payload) = some (.bstr payload, []) := by
  have hnc : ds.all (fun x => x != ':') = true := by
    rw [List.all_eq_true] at hdig ⊢
    intro c hc
    rcases eq_or_ne c ':' with h | h
    · subst h; exact absurd (hdig _ hc) (by decide)
    · simpa using h
  have ht : (ds ++ ':' :: payload).takeWhile (fun x => x != ':') = ds := by
    rw [takeWhile_append_all hnc]
    simp [List.takeWhile_cons]
  rw [strBranch]
  simp only [ht]
  have hlen2 : ds.length ≠ (ds ++ ':' :: payload).length := by
    simp only [List.length_append, List.length_cons]
    omega
  rw [if_neg hlen2, hparse, drop_append_cons]
  simp only [Int.toNat_ofNat, List.take_of_length_le (le_of_lt hlen),
    List.drop_eq_nil_of_le (le_of_lt hlen)]

/-- C4 amended: when a byte string's declared length exceeds the number of
remaining bytes, `decode_next` does not fail: the Python slice clamps, so
the decode returns the truncated remainder (with a position past the end
of the buffer); at top level `bdecode` therefore returns that truncated
byte string as a value.  (Inside an unterminated list or map the decode
still fails later, when the exhausted buffer is reached.) -/
theorem bdecode_clamped_string (ds payload : Bytes) (L : Nat)
    (hne : ds ≠ []) (hdig : ds.all Char.isDigit = true)
    (hparse : pyParseInt ds = some (L : Int)) (hlen : payload.length < L) :
    bdecode (ds ++ ':' :: payload) = some (.bstr payload) := by
  rcases ds with _ | ⟨d, ds'⟩
  · exact absurd rfl hne
  · have hd : d.isDigit = true := by
      rw [List.all_cons, Bool.and_eq_true] at hdig; exact hdig.1
    have hdi : ¬(d = 'i') := by
      rintro rfl; exact absurd hd (by decide)
    rw [bdecode]
    have e : 2 * ((d :: ds') ++ ':' :: payload).length + 2
        = (2 * ((d :: ds') ++ ':' :: payload).length + 1) + 1 := rfl
    rw [e, List.cons_append, decodeNext]
    rw [if_neg hdi, if_pos hd, ← List.cons_append,
      strBranch_clamped (d :: ds') payload L hdig hparse hlen]
    rfl

theorem bdecode_clamped_string_witness :
    bdecode ("7:abc".data) = some (.bstr ("abc".data)) :=
  bdecode_clamped_string ("7".data) ("abc".data) 7 (by decide) (by decide) rfl (by decide)

/-! ### C6 -/

/-- C6: the seed-count store is mutated only when the tracker reply
decodes successfully as a dictionary — for every run in which the reply is
absent, fails to decode, or decodes to a non-dictionary value, the store
comes out unchanged, on every path of the handler. -/
theorem store_update_requires_dict (cfg : Config) (store : SeedCounts) (req : Bytes)
    (replyOpt : Option Bytes)
    (h : ∀ reply, replyOpt = some reply → decodesToDict reply = false) :
    (handleClient cfg store req replyOpt).store = store := by
  rw [handleClient]
  split
  · rfl
  · split
    · rfl
    · rfl
    · rfl
    · cases replyOpt with
      | none => rfl
      | some reply =>
        have hd := h reply rfl
        rw [decodesToDict] at hd
        rcases hb : bdecode reply with _ | v
        · simp only [hb]
        · cases v with
          | int n => simp only [hb]
          | bstr s => simp only [hb]
          | list items => simp only [hb]
          | dict entries =>
            rw [hb] at hd
            simp at hd

theorem store_update_requires_dict_witness :
    (handleClient cfgLow3 [(("K").data, 3)] reqAnnounce (some ("i5e".data))).store
      = [(("K").data, 3)] :=
  store_update_requires_dict cfgLow3 [(("K").data, 3)] reqAnnounce (some ("i5e".data))
    (by intro reply hr; cases hr; rfl)

/-! ### C10 -/

/-- C10 counterexample: the reply de decodes successfully to the empty
map, which contains no `complete` key — but `if decoded and
isinstance(decoded, dict)` at line 234 is falsy for an empty dict, so the
store is never written (the prior count 99 survives) while the reply is
still relayed.  This refutes the claim for that Map. -/
theorem empty_map_no_write_counterexample :
    bdecode ("de".data) = some (.dict []) ∧
    (handleClient cfgLow3 [(("ABC").data, 99)] reqAnnounce (some ("de".data))).store
      = [(("ABC").data, 99)] ∧
    (handleClient cfgLow3 [(("ABC").data, 99)] reqAnnounce (some ("de".data))).sentToClient
      = some ("de".data) :=
  ⟨rfl, rfl, rfl⟩

/-- C10 amended: for an eligible request with a captured swarm identifier
whose reply decodes to a non-empty dictionary with no `complete` key, the
store entry for that identifier is still written —
`decoded.get(b"complete", b"0")` defaults to the byte string 0 —
overwriting any previously recorded count with 0.  (The empty dictionary
is falsy in the line-234 guard, so it updates nothing: the
counterexample.) -/
theorem missing_complete_writes_zero (cfg : Config) (store : SeedCounts)
    (req host : Bytes) (port : Nat) (pathOnly qs ih reply : Bytes)
    (entries : List (Bval × Bval))
    (helig : parseRequest req = .eligible host port pathOnly qs)
    (hih : extractParam infoHashMarker qs = some ih)
    (hdec : bdecode reply = some (.dict entries))
    (hnonempty : entries.isEmpty = false)
    (hnone : entriesGet entries completeKey = none) :
    (handleClient cfg store req (some reply)).store = seedCountsSet store ih 0 ∧
    seedCountsGet (seedCountsSet store ih 0) ih = some 0 := by
  have hne := eligible_ne_empty helig
  constructor
  · rw [handleClient]
    simp only [hne, Bool.false_eq_true, if_false, helig, hdec, hnonempty, hih]
    have hz : pyIntOfValue (entriesGetD entries completeKey zeroDefault) = some 0 := by
      rw [entriesGetD, hnone]
      rfl
    simp only [hz]
  · exact seedCountsGet_set store ih 0

theorem missing_complete_writes_zero_witness :
    (handleClient cfgLow3 [(("ABC").data, 99)] reqAnnounce (some ("d3:fooi1ee".data))).store
      = [(("ABC").data, 0)] := by
  have h := (missing_complete_writes_zero cfgLow3 [(("ABC").data, 99)] reqAnnounce
      ("trk".data) 80 ("/ann".data) ("info_hash=ABC&uploaded=10".data) ("ABC".data)
      ("d3:fooi1ee".data) [(.bstr ("foo".data), .int 1)] rfl rfl rfl rfl rfl).1
  rw [h]
  rfl

/-! ### C5 -/

/-- C5 counterexample: an eligible request whose reply decodes
successfully to a dictionary whose `complete` value is the byte string
abc.  `int(b"abc")` at line 240 raises, the exception jumps past the
`sendall` at line 243, and the client receives nothing — so reply bytes
returned by the forwarder are not always sent to the client. -/
theorem reply_swallowed_counterexample :
    bdecode ("d8:complete3:abce".data)
      = some (.dict [(.bstr ("complete".data), .bstr ("abc".data))]) ∧
    (handleClient cfgLow3 [] reqAnnounce (some ("d8:complete3:abce".data))).sentToClient
      = none ∧
    (handleClient cfgLow3 [] reqAnnounce (some ("d8:complete3:abce".data))).store = [] :=
  ⟨rfl, rfl, rfl⟩

/-- C5 amended: for every eligible request for which the forwarder returns
reply bytes, the handler sends those bytes to the client unmodified
whether or not decoding succeeds — decode failure never blocks delivery —
except in one case: when the reply decodes to a dictionary, a swarm
identifier was captured, and the dictionary's `complete` value (default
byte string 0) does not parse as an integer, the state update raises
before the send and the client receives nothing. -/
theorem reply_relayed_unless_update_raises (cfg : Config) (store : SeedCounts)
    (req host : Bytes) (port : Nat) (pathOnly qs reply : Bytes)
    (helig : parseRequest req = .eligible host port pathOnly qs)
    (hsafe : ∀ entries ih, bdecode reply = some (.dict entries) →
      extractParam infoHashMarker qs = some ih →
      pyIntOfValue (entriesGetD entries completeKey zeroDefault) ≠ none) :
    (handleClient cfg store req (some reply)).sentToClient = some reply := by
  have hne := eligible_ne_empty helig
  rw [handleClient]
  simp only [hne, Bool.false_eq_true, if_false, helig]
  rcases hb : bdecode reply with _ | v
  · simp only [hb]
  · cases v with
    | int n => simp only [hb]
    | bstr s => simp only [hb]
    | list items => simp only [hb]
    | dict entries =>
      simp only [hb]
      by_cases he : entries.isEmpty = true
      · rw [if_pos he]
      · rw [if_neg he]
        rcases hih : extractParam infoHashMarker qs with _ | ih
        · simp only [hih]
        · simp only [hih]
          rcases hint : pyIntOfValue (entriesGetD entries completeKey zeroDefault) with _ | n
          · exact absurd hint (hsafe entries ih hb hih)
          · simp only [hint]

theorem reply_relayed_witness :
    (handleClient cfgLow3 [] reqAnnounce (some ("xyz".data))).sentToClient
      = some ("xyz".data) :=
  reply_relayed_unless_update_raises cfgLow3 [] reqAnnounce ("trk".data) 80 ("/ann".data)
    ("info_hash=ABC&uploaded=10".data) ("xyz".data) rfl
    (by
      intro entries ih hb _
      have hz : bdecode ("xyz".data) = none := rfl
      rw [hz] at hb
      exact Option.noConfusion hb)

/-! ### C9 -/

theorem allOccEmpty_findFirst_none (marker : Bytes) :
    ∀ qs, allOccEmpty marker qs = true → findFirst marker qs = none := by
  intro qs
  induction qs with
  | nil => intro _; rfl
  | cons c rest ih =>
    intro h
    rw [allOccEmpty, Bool.and_eq_true] at h
    have hm : markerMatch marker (c :: rest) = false := by
      rw [markerMatch]
      cases hpre : marker.isPrefixOf (c :: rest) with
      | false => rfl
      | true =>
        have h1 := h.1
        rw [if_pos hpre] at h1
        cases hdrop : (c :: rest).drop marker.length with
        | nil => simp [hdrop]
        | cons c2 t2 =>
          rw [hdrop] at h1
          have : c2 = '&' := by simpa using h1
          subst this
          simp [hdrop]
    rw [findFirst, if_neg (by rw [hm]; exact Bool.false_ne_true), ih h.2]
    rfl

/-- C9 counterexample: a query string that does contain the marker
`info_hash=` immediately followed by `&` (an empty value) — but a later
occurrence carries a value, the regex search skips the empty occurrence
and captures that value, and the store is updated from the reply after
all. -/
theorem empty_infohash_counterexample :
    substrB ("info_hash=&".data) ("info_hash=&info_hash=ABC&uploaded=10".data) = true ∧
    extractParam infoHashMarker ("info_hash=&info_hash=ABC&uploaded=10".data)
      = some ("ABC".data) ∧
    (handleClient cfgLow3 []
        ("GET http://trk/ann?info_hash=&info_hash=ABC&uploaded=10 HTTP/1.1\r\nHost: trk\r\n\r\n".data)
        (some ("d8:completei7ee".data))).store
      = [(("ABC").data, 7)] :=
  ⟨rfl, rfl, rfl⟩

/-- C9 amended: for every eligible request in which every occurrence of
`info_hash=` in the query string is immediately followed by `&` or by the
end of the string, no swarm-identifier value is captured, the request is
still rewritten and forwarded, the reply (when one arrives) is still
relayed, and the seed-count store is never updated from that request's
reply. -/
theorem empty_infohash_no_update (cfg : Config) (store : SeedCounts)
    (req host : Bytes) (port : Nat) (pathOnly qs : Bytes)
    (helig : parseRequest req = .eligible host port pathOnly qs)
    (hempty : allOccEmpty infoHashMarker qs = true) :
    (∀ replyOpt, ((handleClient cfg store req replyOpt).upstream).isSome = true) ∧
    (∀ replyOpt, (handleClient cfg store req replyOpt).store = store) ∧
    (∀ reply, (handleClient cfg store req (some reply)).sentToClient = some reply) := by
  have hne := eligible_ne_empty helig
  have hih : extractParam infoHashMarker qs = none := by
    rw [extractParam, allOccEmpty_findFirst_none infoHashMarker qs hempty]
    rfl
  refine ⟨?_, ?_, ?_⟩
  · intro replyOpt
    rw [handleClient]
    simp only [hne, Bool.false_eq_true, if_false, helig]
    cases replyOpt with
    | none => rfl
    | some reply =>
      rcases hb : bdecode reply with _ | v
      · simp only [hb]; rfl
      · cases v with
        | int n => simp only [hb]; rfl
        | bstr s => simp only [hb]; rfl
        | list items => simp only [hb]; rfl
        | dict entries =>
          simp only [hb]
          by_cases he : entries.isEmpty = true
          · rw [if_pos he]; rfl
          · rw [if_neg he]
            simp only [hih]
            rfl
  · intro replyOpt
    rw [handleClient]
    simp only [hne, Bool.false_eq_true, if_false, helig]
    cases replyOpt with
    | none => rfl
    | some reply =>
      rcases hb : bdecode reply with _ | v
      · simp only [hb]
      · cases v with
        | int n => simp only [hb]
        | bstr s => simp only [hb]
        | list items => simp only [hb]
        | dict entries =>
          simp only [hb]
          by_cases he : entries.isEmpty = true
          · rw [if_pos he]
          · rw [if_neg he]
            simp only [hih]
  · intro reply
    rw [handleClient]
    simp only [hne, Bool.false_eq_true, if_false, helig]
    rcases hb : bdecode reply with _ | v
    · simp only [hb]
    · cases v with
      | int n => simp only [hb]
      | bstr s => simp only [hb]
      | list items => simp only [hb]
      | dict entries =>
        simp only [hb]
        by_cases he : entries.isEmpty = true
        · rw [if_pos he]
        · rw [if_neg he]
          simp only [hih]

theorem empty_infohash_no_update_witness :
    (handleClient cfgLow3 [(("X").data, 1)]
        ("GET http://trk/ann?info_hash=&uploaded=3 HTTP/1.1\r\nHost: trk\r\n\r\n".data)
        (some ("d8:completei7ee".data))).store
      = [(("X").data, 1)] :=
  (empty_infohash_no_update cfgLow3 [(("X").data, 1)]
      ("GET http://trk/ann?info_hash=&uploaded=3 HTTP/1.1\r\nHost: trk\r\n\r\n".data)
      ("trk".data) 80 ("/ann".data) ("info_hash=&uploaded=3".data) rfl rfl).2.1
    (some ("d8:completei7ee".data))

/-! ### C3 -/

unseal Nat.gcd Rat.mul in
/-- C3 counterexample: with `NO_DOWNLOAD` enabled and a query in which the
first `uploaded=` occurrence lies inside the value of the `downloaded=`
field, the upload rewrite does substitute 15.0 there, but the subsequent
download suppression replaces the whole downloaded value (which contains
the rewritten upload field) by 0 — the final rewritten query carries no
`uploaded=` text at all, contradicting the claim that it carries the
multiplied value in place of the first occurrence. -/
theorem upload_rewrite_lost_counterexample :
    findFirst upMarker ("downloaded=uploaded=5&info_hash=A".data)
      = some ("downloaded=".data, "5".data, "&info_hash=A".data) ∧
    rewriteQuery cfgNoDl [] ("downloaded=uploaded=5&info_hash=A".data)
      = ("downloaded=0&info_hash=A".data) ∧
    substrB upMarker (rewriteQuery cfgNoDl [] ("downloaded=uploaded=5&info_hash=A".data))
      = false :=
  ⟨rfl, by decide, by decide⟩

/-- C3 amended: for every eligible request containing an upload-count
field, the query string after the upload-rewriting step carries, in place
of the value at the first occurrence of the `uploaded=` marker (the
occurrence the extraction regex captured), the textual form of the
captured value parsed as an integer — 0 if unparseable — multiplied by
the selected multiplier.  The later suppression rewrites preserve this
text except in the degenerate case where that occurrence lies inside the
`downloaded=` or `left=` value they replace (the counterexample). -/
theorem upload_rewrite_firstMatch (store : SeedCounts) (cfg : Config) (qs p v s : Bytes)
    (h : findFirst upMarker qs = some (p, v, s)) :
    qs = p ++ upMarker ++ v ++ s ∧
    rewriteUploaded (selectMultiplier store cfg (extractParam infoHashMarker qs)) qs =
      p ++ upMarker ++
        pyFloatStr ((((pyParseInt v).getD 0 : Int) : ℚ) *
          selectMultiplier store cfg (extractParam infoHashMarker qs)) ++ s := by
  obtain ⟨hqs, _, _⟩ := findFirst_decomp upMarker qs p v s h
  refine ⟨hqs, ?_⟩
  rw [rewriteUploaded]
  simp only [h, extractParam, Option.map_some', Option.getD_some]
  exact subFirst_of_findFirst _ h

unseal Nat.gcd Rat.mul in
theorem upload_rewrite_firstMatch_witness :
    rewriteUploaded
        (selectMultiplier [] cfgLow3 (extractParam infoHashMarker
          ("info_hash=A&uploaded=1000".data)))
        ("info_hash=A&uploaded=1000".data)
      = ("info_hash=A&uploaded=3000.0".data) := by
  have h := (upload_rewrite_firstMatch [] cfgLow3 ("info_hash=A&uploaded=1000".data)
    ("info_hash=A&".data) ("1000".data) [] rfl).2
  rw [h]
  decide

/-! ### C8 -/

/-- C8 counterexample: a query whose download field already carries the
literal 0.  With `suppressDownload` disabled the rewrite leaves the query
unchanged, so the rewritten query carries the literal 0 for the download
field while the flag is off — the claimed if-and-only-if fails in the
only-if direction. -/
theorem download_zero_counterexample :
    cfgLow3.noDownload = false ∧
    rewriteQuery cfgLow3 [] ("info_hash=A&downloaded=0".data)
      = ("info_hash=A&downloaded=0".data) ∧
    extractParam dlMarker (rewriteQuery cfgLow3 [] ("info_hash=A&downloaded=0".data))
      = some ['0'] :=
  ⟨rfl, rfl, rfl⟩

/-- C8 amended: if `suppressDownload` is enabled, the download-suppression
step forces the value at the first occurrence of the `downloaded=` marker
(with a nonempty value) to the literal 0; if `suppressDownload` is
disabled, the download-suppression step leaves the query string entirely
unchanged.  (The original value being 0 already also leaves a literal 0
in the rewritten query with the flag off, which is what refutes the
claimed equivalence.) -/
theorem download_rewrite_spec (qs : Bytes) :
    rewriteDownloaded false qs = qs ∧
    (∀ p v s, findFirst dlMarker qs = some (p, v, s) →
      qs = p ++ dlMarker ++ v ++ s ∧
      rewriteDownloaded true qs = p ++ dlMarker ++ ['0'] ++ s) := by
  constructor
  · rfl
  · intro p v s h
    obtain ⟨hqs, _, _⟩ := findFirst_decomp dlMarker qs p v s h
    refine ⟨hqs, ?_⟩
    rw [rewriteDownloaded,
      if_pos (show (true && substrB dlMarker qs) = true by simp [findFirst_substrB h])]
    exact subFirst_of_findFirst ['0'] h

theorem download_rewrite_spec_witness :
    rewriteDownloaded true ("info_hash=A&downloaded=500".data)
      = ("info_hash=A&downloaded=0".data) := by
  have h := ((download_rewrite_spec ("info_hash=A&downloaded=500".data)).2
    ("info_hash=A&".data) ("500".data) [] rfl).2
  rw [h]
  decide

/-! ### C7 -/

theorem splitAmp_ne_nil (l : Bytes) : splitAmp l ≠ [] := by
  cases l with
  | nil => simp [splitAmp]
  | cons c rest =>
    rw [splitAmp]
    by_cases hc : c = '&'
    · rw [if_pos hc]; simp
    · rw [if_neg hc]
      cases hs : splitAmp rest with
      | nil => simp
      | cons s0 ss => simp

theorem splitAmp_shape (l : Bytes) : ∃ s0 ss, splitAmp l = s0 :: ss := by
  cases h : splitAmp l with
  | nil => exact absurd h (splitAmp_ne_nil l)
  | cons s0 ss => exact ⟨s0, ss, rfl⟩

theorem splitAmp_cons_amp (l : Bytes) : splitAmp ('&' :: l) = [] :: splitAmp l := by
  rw [splitAmp, if_pos rfl]

theorem splitAmp_cons_ne (c : Char) (hc : c ≠ '&') (l : Bytes) {s0 : Bytes} {ss : List Bytes}
    (h : splitAmp l = s0 :: ss) : splitAmp (c :: l) = (c :: s0) :: ss := by
  rw [splitAmp, if_neg hc, h]

theorem splitAmp_prepend_noamp :
    ∀ m : Bytes, (∀ c ∈ m, c ≠ '&') → ∀ s : Bytes,
      splitAmp (m ++ s) = (m ++ (splitAmp s).headD []) :: (splitAmp s).tail := by
  intro m
  induction m with
  | nil =>
    intro _ s
    obtain ⟨s0, ss, hs⟩ := splitAmp_shape s
    rw [List.nil_append, hs]
    rfl
  | cons c t ihm =>
    intro hm s
    have hc : c ≠ '&' := hm c (List.mem_cons_self c t)
    have ht := ihm (fun x hx => hm x (List.mem_cons_of_mem c hx)) s
    rw [List.cons_append, splitAmp_cons_ne c hc (t ++ s) ht]
    rfl

theorem substrB_cons_false {pat : Bytes} {c : Char} {l : Bytes}
    (h : substrB pat (c :: l) = false) : substrB pat l = false := by
  rw [substrB, Bool.or_eq_false_iff] at h
  exact h.2

/-- Replacing the value of the first marker match changes nothing about the
`&`-separated fields of the query other than the field the match starts
in: the field list keeps its length, and every field that does not contain
the marker as a substring is byte-identical before and after. -/
theorem subFirst_segments (marker newV : Bytes)
    (hm : ∀ c ∈ marker, c ≠ '&') (hv : ∀ c ∈ newV, c ≠ '&') :
    ∀ qs, (splitAmp (subFirst marker newV qs)).length = (splitAmp qs).length ∧
      (∀ i seg, (splitAmp qs).get? i = some seg → substrB marker seg = false →
        (splitAmp (subFirst marker newV qs)).get? i = some seg) := by
  intro qs
  induction qs with
  | nil => exact ⟨rfl, fun i seg hg _ => hg⟩
  | cons c rest ih =>
    by_cases hmk : markerMatch marker (c :: rest) = true
    · have hmk2 := hmk
      rw [markerMatch, Bool.and_eq_true] at hmk2
      obtain ⟨t, ht⟩ := List.isPrefixOf_iff_prefix.mp hmk2.1
      have hdrop : (c :: rest).drop marker.length = t := by rw [← ht, List.drop_left]
      have hsub : subFirst marker newV (c :: rest)
          = (marker ++ newV) ++ t.dropWhile (fun x => x != '&') := by
        rw [subFirst, findFirst, if_pos hmk, hdrop]
        rfl
      have horig : (c :: rest)
          = (marker ++ t.takeWhile (fun x => x != '&')) ++ t.dropWhile (fun x => x != '&') := by
        conv_lhs => rw [← ht, ← List.takeWhile_append_dropWhile (p := fun x => x != '&') (l := t)]
        rw [List.append_assoc]
      have hmtw : ∀ x ∈ marker ++ t.takeWhile (fun x => x != '&'), x ≠ '&' := by
        intro x hx
        rcases List.mem_append.mp hx with h1 | h1
        · exact hm x h1
        · simpa using List.mem_takeWhile_imp h1
      have hmnv : ∀ x ∈ marker ++ newV, x ≠ '&' := by
        intro x hx
        rcases List.mem_append.mp hx with h1 | h1
        · exact hm x h1
        · exact hv x h1
      obtain ⟨s0, ss, hs⟩ := splitAmp_shape (t.dropWhile (fun x => x != '&'))
      have e1 : splitAmp ((marker ++ t.takeWhile (fun x => x != '&'))
            ++ t.dropWhile (fun x => x != '&'))
          = ((marker ++ t.takeWhile (fun x => x != '&')) ++ s0) :: ss := by
        rw [splitAmp_prepend_noamp _ hmtw _, hs]
        rfl
      have e2 : splitAmp ((marker ++ newV) ++ t.dropWhile (fun x => x != '&'))
          = ((marker ++ newV) ++ s0) :: ss := by
        rw [splitAmp_prepend_noamp _ hmnv _, hs]
        rfl
      rw [hsub, horig, e1, e2]
      constructor
      · rfl
      · intro i seg hg hfree
        cases i with
        | zero =>
          rw [List.get?_cons_zero] at hg
          injection hg with hseg
          exfalso
          rw [← hseg, List.append_assoc,
            substrB_of_isPrefixOf (isPrefixOf_append_self marker _)] at hfree
          exact Bool.noConfusion hfree
        | succ i =>
          rw [List.get?_cons_succ] at hg ⊢
          exact hg
    · have hsf : subFirst marker newV (c :: rest) = c :: subFirst marker newV rest := by
        rw [subFirst, findFirst, if_neg hmk]
        cases hf : findFirst marker rest with
        | none => simp [subFirst, hf]
        | some pvs =>
          obtain ⟨p', v', s'⟩ := pvs
          simp [Option.map_some', subFirst, hf]
      obtain ⟨ihlen, ihseg⟩ := ih
      rw [hsf]
      by_cases hc : c = '&'
      · subst hc
        rw [splitAmp_cons_amp, splitAmp_cons_amp]
        constructor
        · simpa using ihlen
        · intro i seg hg hfree
          cases i with
          | zero => rw [List.get?_cons_zero] at hg ⊢; exact hg
          | succ i =>
            rw [List.get?_cons_succ] at hg ⊢
            exact ihseg i seg hg hfree
      · obtain ⟨s0, ss, hs⟩ := splitAmp_shape rest
        obtain ⟨s0', ss', hs'⟩ := splitAmp_shape (subFirst marker newV rest)
        rw [splitAmp_cons_ne c hc rest hs, splitAmp_cons_ne c hc _ hs']
        constructor
        · have h2 := ihlen
          rw [hs, hs'] at h2
          simpa using h2
        · intro i seg hg hfree
          cases i with
          | zero =>
            rw [List.get?_cons_zero] at hg ⊢
            injection hg with hseg
            have hfree2 : substrB marker s0 = false := by
              rw [← hseg] at hfree
              exact substrB_cons_false hfree
            have h3 := ihseg 0 s0 (by rw [hs]; rfl) hfree2
            rw [hs', List.get?_cons_zero] at h3
            injection h3 with h4
            rw [h4, hseg]
          | succ i =>
            rw [List.get?_cons_succ] at hg ⊢
            have h3 := ihseg (i + 1) seg (by rw [hs, List.get?_cons_succ]; exact hg) hfree
            rw [hs', List.get?_cons_succ] at h3
            exact h3

theorem digitChar_ne_amp (n : Nat) : digitChar n ≠ '&' := by
  unfold digitChar
  repeat' split
  all_goals decide

theorem natDigitsAux_noamp :
    ∀ fuel n acc, (∀ c ∈ acc, c ≠ '&') → ∀ c ∈ natDigitsAux fuel n acc, c ≠ '&' := by
  intro fuel
  induction fuel with
  | zero => intro n acc h; simpa [natDigitsAux] using h
  | succ f ihf =>
    intro n acc h c hc
    rw [natDigitsAux] at hc
    by_cases h10 : n < 10
    · rw [if_pos h10] at hc
      rcases List.mem_cons.mp hc with rfl | h2
      · exact digitChar_ne_amp n
      · exact h c h2
    · rw [if_neg h10] at hc
      refine ihf (n / 10) (digitChar (n % 10) :: acc) ?_ c hc
      intro x hx
      rcases List.mem_cons.mp hx with rfl | h2
      · exact digitChar_ne_amp _
      · exact h x h2

theorem natDigits_noamp (n : Nat) : ∀ c ∈ natDigits n, c ≠ '&' :=
  natDigitsAux_noamp (n + 1) n [] (fun c hc => absurd hc (List.not_mem_nil c))

theorem fracDigits_noamp : ∀ fuel r d, ∀ c ∈ fracDigits fuel r d, c ≠ '&' := by
  intro fuel
  induction fuel with
  | zero => intro r d c hc; simp [fracDigits] at hc
  | succ f ihf =>
    intro r d c hc
    rw [fracDigits] at hc
    by_cases h0 : r = 0
    · rw [if_pos h0] at hc; simp at hc
    · rw [if_neg h0] at hc
      rcases List.mem_cons.mp hc with rfl | h2
      · exact digitChar_ne_amp _
      · exact ihf _ _ c h2

theorem pyFloatStr_noamp (q : ℚ) : ∀ c ∈ pyFloatStr q, c ≠ '&' := by
  intro c hc
  simp only [pyFloatStr, List.mem_append, List.mem_cons] at hc
  rcases hc with (h1 | h1) | h1 | h1
  · by_cases hq : q < 0
    · rw [if_pos hq] at h1
      rcases List.mem_cons.mp h1 with rfl | h2
      · decide
      · exact absurd h2 (List.not_mem_nil c)
    · rw [if_neg hq] at h1
      exact absurd h1 (List.not_mem_nil c)
  · exact natDigits_noamp _ c h1
  · subst h1; decide
  · by_cases hfr : (fracDigits 17 (q.num.natAbs % q.den) q.den).isEmpty = true
    · rw [if_pos hfr] at h1
      rcases List.mem_cons.mp h1 with rfl | h2
      · decide
      · exact absurd h2 (List.not_mem_nil c)
    · rw [if_neg hfr] at h1
      exact fracDigits_noamp _ _ _ c h1

theorem rewriteUploaded_segments (mult : ℚ) (qs : Bytes) :
    (splitAmp (rewriteUploaded mult qs)).length = (splitAmp qs).length ∧
    (∀ i seg, (splitAmp qs).get? i = some seg → substrB upMarker seg = false →
      (splitAmp (rewriteUploaded mult qs)).get? i = some seg) := by
  rw [rewriteUploaded]
  cases h : findFirst upMarker qs with
  | none => exact ⟨rfl, fun i seg hg _ => hg⟩
  | some pvs =>
    exact subFirst_segments upMarker _ (by decide) (pyFloatStr_noamp _) qs

theorem rewriteDownloaded_segments (b : Bool) (qs : Bytes) :
    (splitAmp (rewriteDownloaded b qs)).length = (splitAmp qs).length ∧
    (∀ i seg, (splitAmp qs).get? i = some seg → substrB dlMarker seg = false →
      (splitAmp (rewriteDownloaded b qs)).get? i = some seg) := by
  rw [rewriteDownloaded]
  split
  · exact subFirst_segments dlMarker ['0'] (by decide) (by decide) qs
  · exact ⟨rfl, fun i seg hg _ => hg⟩

theorem rewriteLeft_segments (b : Bool) (qs : Bytes) :
    (splitAmp (rewriteLeft b qs)).length = (splitAmp qs).length ∧
    (∀ i seg, (splitAmp qs).get? i = some seg → substrB leftMarker seg = false →
      (splitAmp (rewriteLeft b qs)).get? i = some seg) := by
  rw [rewriteLeft]
  split
  · exact subFirst_segments leftMarker ['0'] (by decide) (by decide) qs
  · exact ⟨rfl, fun i seg hg _ => hg⟩

unseal Nat.gcd Rat.mul in
/-- C7 counterexample: the query field `xuploaded=7` is neither the upload
nor the download nor the remaining-bytes field, yet rewriting alters it:
the substitution regex matches the marker `uploaded=` inside the field
name, so the field becomes `xuploaded=21.0`. -/
theorem untouched_fields_counterexample :
    (splitAmp ("info_hash=A&xuploaded=7".data)).get? 1 = some ("xuploaded=7".data) ∧
    (splitAmp (rewriteQuery cfgLow3 [] ("info_hash=A&xuploaded=7".data))).get? 1
      = some ("xuploaded=21.0".data) :=
  ⟨rfl, by decide⟩

/-- C7 amended: rewriting preserves the number of `&`-separated query
fields, and every field that contains none of the markers `uploaded=`,
`downloaded=`, `left=` as a substring is byte-identical (at its position)
before and after rewriting.  A field merely containing one of the markers
— for example a field named `xuploaded` — can be altered, which is what
refutes the claim as stated. -/
theorem untouched_fields_preserved (cfg : Config) (store : SeedCounts) (qs : Bytes) :
    (splitAmp (rewriteQuery cfg store qs)).length = (splitAmp qs).length ∧
    (∀ i seg, (splitAmp qs).get? i = some seg →
      substrB upMarker seg = false → substrB dlMarker seg = false →
      substrB leftMarker seg = false →
      (splitAmp (rewriteQuery cfg store qs)).get? i = some seg) := by
  obtain ⟨l1, s1⟩ := rewriteUploaded_segments
    (selectMultiplier store cfg (extractParam infoHashMarker qs)) qs
  obtain ⟨l2, s2⟩ := rewriteDownloaded_segments cfg.noDownload
    (rewriteUploaded (selectMultiplier store cfg (extractParam infoHashMarker qs)) qs)
  obtain ⟨l3, s3⟩ := rewriteLeft_segments cfg.pretendToSeed
    (rewriteDownloaded cfg.noDownload
      (rewriteUploaded (selectMultiplier store cfg (extractParam infoHashMarker qs)) qs))
  constructor
  · rw [rewriteQuery, l3, l2, l1]
  · intro i seg hg hu hd hl
    rw [rewriteQuery]
    exact s3 i seg (s2 i seg (s1 i seg hg hu) hd) hl

theorem untouched_fields_preserved_witness :
    (splitAmp (rewriteQuery cfgLow3 [] ("info_hash=A&uploaded=2&extra=9".data))).get? 2
      = some ("extra=9".data) :=
  (untouched_fields_preserved cfgLow3 [] ("info_hash=A&uploaded=2&extra=9".data)).2
    2 ("extra=9".data) rfl rfl rfl rfl
